import Mathlib

/-!
# Weavr Alpha: verification of the specified core against the repository code

The repository's algorithmic core is given as Python snippets embedded in the
design documents (`src/docs/*.md`) plus the TypeScript utility
`src/src/utils/instructionUpdater.ts`.  This file gives a shallow embedding of
those functions and settles the specification's claims about them.

Embedded functions (each definition is named after its source symbol):
* `validate_params`        — `validation_rules.py` snippet, `ParameterValidator.validate_params`
* `validate_directory`     — roadmap "File Handling" snippet
* `write_markdown`         — roadmap "File Handling" snippet (filename handling)
* `get_modified_files`     — `indexing.py` snippet
* `get_context`            — `retrieval.py` snippet
* `hybrid_retrieval`       — `retrieval.py` snippet
* `process_query`          — `reasoning_engine.py` snippet (stage application)
* `updateInstructions`     — `instructionUpdater.ts`
-/

deriving instance DecidableEq for Except

namespace Weavr

/- ## ParameterValidator (`validation_rules.py` snippet)

```python
errors = []
if not (0 <= params['temperature'] <= 1):
    errors.append("Temperature out of range (0-1)")
if params['max_length'] <= 0:
    errors.append("Invalid max length")
if errors:
    raise InvalidParametersError(", ".join(errors))
```
Raising `InvalidParametersError(msg)` is modelled as `Except.error msg`. -/

/-- Join a list of strings with `", "`, as Python's `", ".join(errors)`. -/
def joinComma : List String → String
  | [] => ""
  | [x] => x
  | x :: y :: rest => x ++ ", " ++ joinComma (y :: rest)

/-- `ParameterValidator.validate_params`, translated from the
`validation_rules.py` snippet.  The temperature is a real-valued parameter
(modelled as `Rat`); the output length an integer. -/
def validate_params (temperature : Rat) (max_length : Int) : Except String Unit :=
  let errors : List String := []
  let errors :=
    if ¬ (0 ≤ temperature ∧ temperature ≤ 1) then
      errors ++ ["Temperature out of range (0-1)"]
    else errors
  let errors :=
    if max_length ≤ 0 then errors ++ ["Invalid max length"] else errors
  if errors ≠ [] then .error (joinComma errors) else .ok ()

/- ## PathValidator (`validate_directory`, roadmap "File Handling" snippet)

```python
try:
    if not os.path.exists(path): raise FileNotFoundError(...)
    if not os.path.isdir(path): raise NotADirectoryError(...)
    if require_write and not os.access(path, os.W_OK): raise PermissionError(...)
    # Prevent symlink attacks
    if os.path.islink(path): raise SecurityError(...)
    return True
except Exception as e:
    raise ValidationError(str(e)) from e
```
-/

/-- The error raised inside the `try` block of `validate_directory`. -/
inductive PyError
  | fileNotFound
  | notADirectory
  | permission
  | security
deriving DecidableEq, Repr

/-- What the caller of `validate_directory` observes: every internal failure is
caught by `except Exception as e` and re-raised wrapped in `ValidationError`. -/
inductive ValidationFailure
  | validationError (inner : PyError)
deriving DecidableEq, Repr

/-- The facts `validate_directory` queries about its path argument.
`pathExists`, `isDir` and `writable` are the results of `os.path.exists`,
`os.path.isdir` and `os.access(path, os.W_OK)`, which all FOLLOW a symbolic
link (they describe the link's target); `isLink` is `os.path.islink`, which is
about the path itself.  A dangling symlink has `isLink = true` and
`pathExists = false`. -/
structure PathState where
  pathExists : Bool
  isDir : Bool
  writable : Bool
  isLink : Bool
deriving DecidableEq, Repr

/-- `validate_directory`, translated from the roadmap "File Handling" snippet.
The checks run in the source's order; any raise is wrapped in
`ValidationFailure.validationError` by the `except` clause. -/
def validate_directory (path : PathState) (require_write : Bool) :
    Except ValidationFailure Bool :=
  let inner : Except PyError Bool :=
    if ¬ path.pathExists then .error .fileNotFound
    else if ¬ path.isDir then .error .notADirectory
    else if require_write ∧ ¬ path.writable then .error .permission
    else if path.isLink then .error .security
    else .ok true
  match inner with
  | .ok b => .ok b
  | .error e => .error (.validationError e)

/- ## CorpusWatcher (`get_modified_files`, `indexing.py` snippet)

```python
def get_modified_files(knowledge_base_dir, last_index_time):
    modified_files = []
    for root, _, files in os.walk(knowledge_base_dir):
        for file in files:
            if file.endswith(".md"):
                full_path = os.path.join(root, file)
                if os.path.getmtime(full_path) > last_index_time:
                    modified_files.append(full_path)
    return modified_files
```
-/

/-- A file under the knowledge-base root, as seen by the `os.walk` traversal:
its full path and its modification timestamp (`os.path.getmtime`). -/
structure FsFile where
  path : String
  mtime : Nat
deriving DecidableEq, Repr

/-- `get_modified_files`, translated from the `indexing.py` snippet.  The
`os.walk` traversal of the tree is the input list `files` (every file under
the root, in walk order); a file's basename ends with `".md"` exactly when its
full path does. -/
def get_modified_files (files : List FsFile) (last_index_time : Nat) : List String :=
  (files.filter fun f =>
    f.path.endsWith ".md" && decide (last_index_time < f.mtime)).map FsFile.path

/-- Modelled from the spec: the incremental re-index pass itself is not among
the snippets (only its change detector `get_modified_files` is).  Per the
surrounding document text — "Instead of re-indexing everything, Weavr will
only update changed files" — the pass re-chunks and re-embeds exactly the
files returned by `get_modified_files`.  Returns the set of re-processed
paths. -/
def reindex_pass (files : List FsFile) (last_index_time : Nat) : List String :=
  get_modified_files files last_index_time

/- ## Generated-output filename (`write_markdown`, roadmap snippet)

```python
safe_filename = re.sub(r'[^\w\-_]', '', filename)[:255]
full_path = os.path.join(directory, f"{safe_filename}.md")
```
-/

/-- A word character of the regex class `\w`: alphanumeric or underscore. -/
def isWordChar (c : Char) : Bool := c.isAlphanum || c = '_'

/-- The characters kept by `re.sub(r'[^\w\-_]', '', filename)`: word
characters, hyphen, underscore. -/
def keepFilenameChar (c : Char) : Bool := isWordChar c || c = '-' || c = '_'

/-- The sanitized stem `re.sub(r'[^\w\-_]', '', filename)[:255]` from
`write_markdown`: strip every character outside the class, then truncate to
the first 255 characters. -/
def safe_filename (filename : String) : String :=
  ⟨(filename.data.filter keepFilenameChar).take 255⟩

/-- The basename of the file `write_markdown` writes:
`f"{safe_filename}.md"`. -/
def write_markdown_basename (filename : String) : String :=
  safe_filename filename ++ ".md"

/- ## String helpers shared by the embedded functions

Python/JavaScript string primitives (`str.split()`, `str.lower()`,
`"sep".join(...)`, substring test `in`, `String.prototype.trim`) are modelled
at the level of character lists so that every operation is executable and
kernel-reducible. -/

/-- `startsWithList p s`: `p` is a prefix of `s`. -/
def startsWithList : List Char → List Char → Bool
  | [], _ => true
  | _ :: _, [] => false
  | a :: p, b :: s => a == b && startsWithList p s

/-- `containsSub needle hay`: `needle` occurs contiguously in `hay` — Python's
`needle in hay` on strings. -/
def containsSub : List Char → List Char → Bool
  | needle, [] => startsWithList needle []
  | needle, c :: t => startsWithList needle (c :: t) || containsSub needle t

/-- Python's `"sep".join(parts)`. -/
def joinSep (sep : List Char) : List (List Char) → List Char
  | [] => []
  | [x] => x
  | x :: y :: rest => x ++ sep ++ joinSep sep (y :: rest)

/-- Helper for `pySplit`: consume the characters, collecting the current word
in `acc` (reversed) and emitting it at each whitespace run or at the end. -/
def splitWsAux : List Char → List Char → List (List Char)
  | [], acc => if acc = [] then [] else [acc.reverse]
  | c :: rest, acc =>
    if c.isWhitespace then
      if acc = [] then splitWsAux rest [] else acc.reverse :: splitWsAux rest []
    else splitWsAux rest (c :: acc)

/-- Python's `query.split()` with no separator argument: split on runs of
whitespace, producing no empty words. -/
def pySplit (s : String) : List (List Char) := splitWsAux s.data []

/-- Python's `query.lower()`. -/
def pyLower (s : String) : String := ⟨s.data.map Char.toLower⟩

/- ## HybridRetriever: adaptive granularity (`get_context`, `retrieval.py` snippet)

```python
def get_context(query, retriever):
    docs = retriever.get_relevant_documents(query)
    if not docs:
        return "No relevant documents found."
    if len(query.split()) < 5 or "summarize" in query.lower():
        return "\n\n".join([doc.page_content for doc in docs])  # Retrieve full section
    return "\n\n".join([doc.page_content for doc in docs[:3]])  # Top 3 chunks
```
-/

/-- A retrieved langchain `Document`.  `page_content` is the chunk text the
retriever stored.  `parent_text` is the full text of the chunk's parent
Document (data model §3); it is carried only so that parent-expansion claims
can be stated — `get_context` never reads it. -/
structure RDoc where
  page_content : String
  parent_text : String
deriving DecidableEq, Repr

/-- The broadness test inlined in `get_context`:
`len(query.split()) < 5 or "summarize" in query.lower()`. -/
def isBroadQuery (query : String) : Bool :=
  decide ((pySplit query).length < 5) ||
    containsSub "summarize".data (pyLower query).data

/-- `get_context`, translated from the `retrieval.py` snippet; `docs` is the
candidate list the retriever produced for the query. -/
def get_context (query : String) (docs : List RDoc) : String :=
  if docs = [] then "No relevant documents found."
  else if isBroadQuery query then
    ⟨joinSep "\n\n".data (docs.map fun d => d.page_content.data)⟩
  else
    ⟨joinSep "\n\n".data ((docs.take 3).map fun d => d.page_content.data)⟩

/- ## HybridRetriever: merge (`hybrid_retrieval`, `retrieval.py` snippet)

```python
def hybrid_retrieval(query, retriever, bm25_search):
    faiss_docs = retriever.get_relevant_documents(query)
    bm25_docs = bm25_search(query)
    merged_docs = list(set(faiss_docs + bm25_docs))  # Deduplicate and merge
    return merged_docs
```

`set` deduplicates by document (chunk) identity; `list(set(...))` enumerates
the set in CPython's iteration order, which the language does not specify (it
varies with the hash seed / object addresses between runs).  The embedding
therefore takes the enumeration `set2list` as a parameter constrained to
produce some duplicate-free enumeration of its argument's elements. -/

variable {Doc : Type} [DecidableEq Doc]

/-- `out` is an admissible value of Python's `list(set(l))`: duplicate-free
and containing exactly the elements of `l`. -/
def isSetListOf (out l : List Doc) : Prop :=
  out.Nodup ∧ (∀ d ∈ l, d ∈ out) ∧ (∀ d ∈ out, d ∈ l)

instance (out l : List Doc) : Decidable (isSetListOf out l) := by
  unfold isSetListOf
  infer_instance

/-- `hybrid_retrieval`, translated from the `retrieval.py` snippet:
`list(set(faiss_docs + bm25_docs))`, with the set-enumeration order made an
explicit parameter. -/
def hybrid_retrieval (set2list : List Doc → List Doc)
    (faiss_docs bm25_docs : List Doc) : List Doc :=
  set2list (faiss_docs ++ bm25_docs)

/-- One admissible set enumeration: first-occurrence order. -/
def pySetFirst (l : List Doc) : List Doc := l.dedup

/-- Another admissible set enumeration of the same elements, as under a
different hash seed: the reverse of first-occurrence order. -/
def pySetRev (l : List Doc) : List Doc := l.dedup.reverse

/- ## ReasoningPipeline (`EnhancedProcessor.process_query`, `reasoning_engine.py` snippet)

```python
response = await self.api_call(base_payload)
if active_modules['cot']:
    response = self.modules['cot'].process(response, context)
if active_modules['tot']:
    response = self.modules['tot'].explore(response, context)
if active_modules['validation']:
    response = self.modules['validation'].validate(response, context)
return response
```
-/

/-- The per-request enable mask over the three reasoning stages, in the fixed
order ChainOfThought (`cot`), TreeOfThought (`tot`), ConsistencyValidation
(`validation`). -/
structure ActiveModules where
  cot : Bool
  tot : Bool
  validation : Bool
deriving DecidableEq, Repr

/-- The stage-application part of `EnhancedProcessor.process_query`, starting
from the model's draft response (`response = await self.api_call(...)`).  The
three stage bodies (`ChainOfThoughtProcessor.process`,
`TreeOfThoughtExplorer.explore`, `ConsistencyValidator.validate`) are opaque
`(draft, context) -> draft` functions passed as parameters. -/
def process_query (cot tot validation : String → String → String)
    (active : ActiveModules) (draft context : String) : String :=
  let response := draft
  let response := if active.cot then cot response context else response
  let response := if active.tot then tot response context else response
  let response := if active.validation then validation response context else response
  response

/-- The spec-side description of the pipeline (§4.7, §9): a fixed ordered list
of `(enabled, stage)` pairs folded left over the draft, a disabled stage being
a no-op passthrough. -/
def applyStages (stages : List (Bool × (String → String → String)))
    (context draft : String) : String :=
  stages.foldl (fun d s => if s.1 then s.2 d context else d) draft

/- ## `updateInstructions` (`src/src/utils/instructionUpdater.ts`)

```ts
return new Promise((resolve) => {
    let newInstructions = '';
    rl.on('line', (line) => { newInstructions += line + '\n'; });
    rl.on('close', () => { resolve(newInstructions.trim()); });
    rl.on('SIGINT', () => { rl.close(); });
});
```
-/

/-- How the input stream ends: end-of-input (Ctrl+D closes the readline
interface) or SIGINT (whose handler calls `rl.close()`, which also fires the
`close` event). -/
inductive Terminator
  | eof
  | sigint
deriving DecidableEq, Repr

/-- JavaScript whitespace for `String.prototype.trim`. -/
def wsChar (c : Char) : Bool := c.isWhitespace

/-- JavaScript `s.trim()`: remove trailing, then leading, whitespace. -/
def jsTrim (s : List Char) : List Char :=
  ((s.reverse.dropWhile wsChar).reverse).dropWhile wsChar

/-- The accumulator built by the `line` handler:
`newInstructions += line + '\n'` for each received line, starting from `''`. -/
def accumulateLines (lines : List (List Char)) : List Char :=
  lines.foldl (fun acc l => acc ++ l ++ ['\n']) []

/-- `updateInstructions`, translated from `instructionUpdater.ts`, as a
function of the line events received and the way the input ended.  The
returned promise is modelled as `Option`: `some` is resolution (`resolve`),
`none` would be rejection — which no code path produces.  On `eof` the
readline interface closes and the `close` handler resolves with the trimmed
accumulator; on `sigint` the SIGINT handler closes the interface, firing the
same `close` handler on the lines accumulated so far. -/
def updateInstructions (lines : List (List Char)) (t : Terminator) :
    Option (List Char) :=
  match t with
  | .eof => some (jsTrim (accumulateLines lines))
  | .sigint => some (jsTrim (accumulateLines lines))

end Weavr

/- ## Theorems -/

namespace Weavr

/-- **C3.** If both constraints are violated (temperature outside `[0,1]` and
output length not a positive integer), `validate_params` fails with a single
error whose message enumerates both violated constraints — the temperature
message and the max-length message, joined — not only the first one. -/
theorem validate_params_reports_all_violations (t : Rat) (ml : Int)
    (ht : ¬ (0 ≤ t ∧ t ≤ 1)) (hml : ml ≤ 0) :
    validate_params t ml =
      .error "Temperature out of range (0-1), Invalid max length" := by
  simp [validate_params, ht, hml, joinComma]

/-- Witness for **C3** at the spec's concrete input
`{temperature: 1.5, maxLength: 0}`. -/
theorem validate_params_reports_all_violations_witness :
    validate_params (3 / 2 : Rat) 0 =
      .error "Temperature out of range (0-1), Invalid max length" :=
  validate_params_reports_all_violations (3 / 2) 0 (by norm_num) (by norm_num)

/-- **C2, counterexample.** The claim says a symlink path always fails with
`SecurityError`, regardless of target validity.  At the concrete input of a
dangling symbolic link (the link target does not exist) with
`require_write = true`, the code raises `FileNotFoundError` — wrapped, like
every failure, in `ValidationError` — not `SecurityError`: `os.path.exists`
follows the link, so the existence check fires before the symlink check. -/
theorem validate_directory_symlink_claim_false :
    (PathState.mk false false false true).isLink = true ∧
    validate_directory (PathState.mk false false false true) true ≠
      Except.error (ValidationFailure.validationError PyError.security) ∧
    validate_directory (PathState.mk false false false true) true =
      Except.error (ValidationFailure.validationError PyError.fileNotFound) := by
  decide

/-- **C2, amended.** For every symlink path and both values of `require_write`,
`validate_directory` always fails (it never returns `Ok`, so a symlink is never
silently accepted), and the failure the caller observes is always a
`ValidationError` wrapper; the wrapped kind is `SecurityError` exactly when the
link's target exists, is a directory, and — when write access is required — is
writable; otherwise the earlier existence/directory/permission check fires
first and its kind is wrapped instead. -/
theorem validate_directory_symlink_always_fails (p : PathState) (w : Bool)
    (h : p.isLink = true) :
    (∀ b, validate_directory p w ≠ Except.ok b) ∧
    (validate_directory p w =
        Except.error (ValidationFailure.validationError PyError.security) ↔
      (p.pathExists = true ∧ p.isDir = true ∧ (w = true → p.writable = true))) := by
  rcases p with ⟨pe, pd, pw, pl⟩
  cases pl
  · simp at h
  · cases pe <;> cases pd <;> cases pw <;> cases w <;> decide

/-- Witness for **C2 (amended)** at a symlink whose target is a valid writable
directory: the failure is the wrapped `SecurityError`. -/
theorem validate_directory_symlink_always_fails_witness :
    (∀ b, validate_directory (PathState.mk true true true true) true ≠ Except.ok b) ∧
    (validate_directory (PathState.mk true true true true) true =
        Except.error (ValidationFailure.validationError PyError.security) ↔
      (true = true ∧ true = true ∧ (true = true → true = true))) :=
  validate_directory_symlink_always_fails (PathState.mk true true true true) true rfl

/-- **C7.** Provided the walked files have distinct paths (as paths in one
filesystem tree do), `get_modified_files root since` returns exactly the set of
files under the root whose modification timestamp exceeds `since` and whose
name ends in the recognized content extension `".md"`; consequently a file
unmodified since `since` is excluded from the returned set and is not
re-processed by the re-index pass, which processes exactly that set. -/
theorem get_modified_files_exact (files : List FsFile) (t : Nat)
    (hnd : (files.map FsFile.path).Nodup) :
    (∀ p, p ∈ get_modified_files files t ↔
      ∃ f, f ∈ files ∧ f.path = p ∧ f.path.endsWith ".md" = true ∧ t < f.mtime) ∧
    (∀ f ∈ files, ¬ t < f.mtime → f.path ∉ reindex_pass files t) := by
  constructor
  · intro p
    simp only [get_modified_files, List.mem_map, List.mem_filter,
      Bool.and_eq_true, decide_eq_true_eq]
    constructor
    · rintro ⟨f, ⟨hf, hmd, ht⟩, rfl⟩
      exact ⟨f, hf, rfl, hmd, ht⟩
    · rintro ⟨f, hf, rfl, hmd, ht⟩
      exact ⟨f, ⟨hf, hmd, ht⟩, rfl⟩
  · intro f hf hmt hmem
    simp only [reindex_pass, get_modified_files, List.mem_map, List.mem_filter,
      Bool.and_eq_true, decide_eq_true_eq] at hmem
    obtain ⟨f', ⟨hf', _, ht'⟩, hpath⟩ := hmem
    exact hmt (List.inj_on_of_nodup_map hnd hf' hf hpath ▸ ht')

/-- Witness for **C7**: a two-file tree where only one file qualifies (the
other is unmodified), checked at the theorem's conclusion. -/
theorem get_modified_files_exact_witness :
    (∀ p, p ∈ get_modified_files [⟨"kb/a.md", 7⟩, ⟨"kb/b.md", 2⟩] 5 ↔
      ∃ f, f ∈ [FsFile.mk "kb/a.md" 7, FsFile.mk "kb/b.md" 2] ∧ f.path = p ∧
        f.path.endsWith ".md" = true ∧ 5 < f.mtime) ∧
    (∀ f ∈ [FsFile.mk "kb/a.md" 7, FsFile.mk "kb/b.md" 2], ¬ 5 < f.mtime →
      f.path ∉ reindex_pass [⟨"kb/a.md", 7⟩, ⟨"kb/b.md", 2⟩] 5) :=
  get_modified_files_exact [⟨"kb/a.md", 7⟩, ⟨"kb/b.md", 2⟩] 5 (by decide)

/-- **C9.** The basename of the file `write_markdown` writes is the input
filename stripped to word characters, hyphen and underscore, truncated to the
fixed maximum length 255, with the fixed extension `".md"` appended; every
character of the sanitized stem lies in that class. -/
theorem write_markdown_basename_sanitized (filename : String) :
    write_markdown_basename filename = safe_filename filename ++ ".md" ∧
    (∀ c ∈ (safe_filename filename).data, keepFilenameChar c = true) ∧
    (safe_filename filename).data.length ≤ 255 := by
  refine ⟨rfl, ?_, ?_⟩
  · intro c hc
    have h2 : c ∈ filename.data.filter keepFilenameChar :=
      List.take_subset 255 _ hc
    exact (List.mem_filter.mp h2).2
  · have h : ((filename.data.filter keepFilenameChar).take 255).length ≤ 255 := by
      simp [List.length_take]
    exact h

/- ### Substring helper lemmas -/

theorem startsWithList_self_append (p t : List Char) :
    startsWithList p (p ++ t) = true := by
  induction p with
  | nil => rfl
  | cons a p ih => simp [startsWithList, ih]

theorem containsSub_of_starts {n h : List Char}
    (hs : startsWithList n h = true) : containsSub n h = true := by
  cases h with
  | nil => simpa [containsSub] using hs
  | cons c t => simp [containsSub, hs]

theorem containsSub_append_left {n t : List Char}
    (h : containsSub n t = true) (pre : List Char) :
    containsSub n (pre ++ t) = true := by
  induction pre with
  | nil => simpa using h
  | cons c p ih => simp [containsSub, ih]

theorem containsSub_joinSep_of_mem {x : List Char} {xs : List (List Char)}
    (sep : List Char) (hx : x ∈ xs) :
    containsSub x (joinSep sep xs) = true := by
  induction xs with
  | nil => cases hx
  | cons y ys ih =>
    cases ys with
    | nil =>
      have hxy : x = y := by simpa using hx
      subst hxy
      have h1 : startsWithList x (x ++ []) = true := startsWithList_self_append x []
      rw [List.append_nil] at h1
      exact containsSub_of_starts h1
    | cons z zs =>
      rcases List.mem_cons.mp hx with rfl | hx'
      · have h1 : startsWithList x (x ++ (sep ++ joinSep sep (z :: zs))) = true :=
          startsWithList_self_append _ _
        have h2 := containsSub_of_starts h1
        show containsSub x (x ++ sep ++ joinSep sep (z :: zs)) = true
        simpa [List.append_assoc] using h2
      · have h2 := ih hx'
        show containsSub x (y ++ sep ++ joinSep sep (z :: zs)) = true
        simpa [List.append_assoc] using containsSub_append_left h2 (y ++ sep)

/-- **C4.** A query for which retrieval found no candidate chunks — in
particular any query against an empty index — makes `get_context` return the
explicit "no relevant knowledge" result, the fixed sentinel
`"No relevant documents found."`, which is not the empty string: retrieval
never hands back an empty string as context and never a silent empty
response. -/
theorem get_context_empty_index (query : String) :
    get_context query [] = "No relevant documents found." ∧
    "No relevant documents found." ≠ "" := by
  constructor
  · rfl
  · decide

/-- **C5, counterexample.** The claim says a broad query's RetrievalResult
contains the full parent-document text for at least the top match.  At the
concrete broad query `"hi"` (1 word < 5) with one candidate whose stored chunk
text is `"alpha"` and whose parent document reads `"alpha beta gamma"`, the
code returns exactly the chunk text `"alpha"`; the parent text does not occur
in the result.  The code never expands a candidate to its parent document —
it only switches between all candidates and the top 3. -/
theorem get_context_broad_keeps_chunk_not_parent :
    isBroadQuery "hi" = true ∧
    get_context "hi" [RDoc.mk "alpha" "alpha beta gamma"] = "alpha" ∧
    containsSub ("alpha beta gamma").data
      (get_context "hi" [RDoc.mk "alpha" "alpha beta gamma"]).data = false := by
  decide

/-- **C5, amended.** `get_context` classifies a query as broad exactly when
its word count is below 5 or it contains the summarization cue `"summarize"`
(case-insensitively).  When broad — and candidates exist — the result is the
concatenation of the stored chunk text of every candidate (so it contains each
candidate's full retrieved text, in particular the top match's, but no
parent-document expansion); otherwise it is exactly the top 3 chunks, the
bound 3 being hard-coded rather than configurable. -/
theorem get_context_granularity (query : String) (docs : List RDoc)
    (h : docs ≠ []) :
    (isBroadQuery query = true →
      get_context query docs =
        ⟨joinSep "\n\n".data (docs.map fun d => d.page_content.data)⟩ ∧
      ∀ d ∈ docs,
        containsSub d.page_content.data (get_context query docs).data = true) ∧
    (isBroadQuery query = false →
      get_context query docs =
        ⟨joinSep "\n\n".data ((docs.take 3).map fun d => d.page_content.data)⟩) := by
  constructor
  · intro hb
    have he : get_context query docs =
        ⟨joinSep "\n\n".data (docs.map fun d => d.page_content.data)⟩ := by
      simp [get_context, h, hb]
    refine ⟨he, ?_⟩
    intro d hd
    rw [he]
    exact containsSub_joinSep_of_mem _ (List.mem_map_of_mem _ hd)
  · intro hb
    simp [get_context, h, hb]

/-- Witness for **C5 (amended)** at the broad query `"hi"` with a single
candidate. -/
theorem get_context_granularity_witness :
    (isBroadQuery "hi" = true →
      get_context "hi" [RDoc.mk "alpha" "alpha beta gamma"] =
        ⟨joinSep "\n\n".data
          (([RDoc.mk "alpha" "alpha beta gamma"]).map fun d => d.page_content.data)⟩ ∧
      ∀ d ∈ [RDoc.mk "alpha" "alpha beta gamma"],
        containsSub d.page_content.data
          (get_context "hi" [RDoc.mk "alpha" "alpha beta gamma"]).data = true) ∧
    (isBroadQuery "hi" = false →
      get_context "hi" [RDoc.mk "alpha" "alpha beta gamma"] =
        ⟨joinSep "\n\n".data
          ((([RDoc.mk "alpha" "alpha beta gamma"]).take 3).map fun d =>
            d.page_content.data)⟩) :=
  get_context_granularity "hi" [RDoc.mk "alpha" "alpha beta gamma"] (by simp)

/-- **C1.** For every query and every pair of vector-search and keyword-search
candidate lists, and every admissible enumeration of the Python set that
merges them, the merged result contains each chunk identity at most once
(it is duplicate-free), its members are exactly the union of the two result
sets, and a chunk present in both result sets occurs exactly once — union,
not concatenation. -/
theorem hybrid_retrieval_no_duplicates {Doc : Type} [DecidableEq Doc]
    (set2list : List Doc → List Doc) (faiss_docs bm25_docs : List Doc)
    (hset : isSetListOf (set2list (faiss_docs ++ bm25_docs))
      (faiss_docs ++ bm25_docs)) :
    (hybrid_retrieval set2list faiss_docs bm25_docs).Nodup ∧
    (∀ d, d ∈ hybrid_retrieval set2list faiss_docs bm25_docs ↔
      d ∈ faiss_docs ∨ d ∈ bm25_docs) ∧
    (∀ d, d ∈ faiss_docs → d ∈ bm25_docs →
      List.count d (hybrid_retrieval set2list faiss_docs bm25_docs) = 1) := by
  obtain ⟨hnd, hin, hout⟩ := hset
  refine ⟨hnd, ?_, ?_⟩
  · intro d
    constructor
    · intro hd
      simpa [List.mem_append] using hout d hd
    · intro hd
      exact hin d (List.mem_append.mpr hd)
  · intro d hdf _
    exact List.count_eq_one_of_mem hnd (hin d (List.mem_append.mpr (Or.inl hdf)))

/-- Witness for **C1**: FAISS returns chunks `1, 2`, BM25 returns `2, 3`; the
shared chunk `2` occurs exactly once in the merged result. -/
theorem hybrid_retrieval_no_duplicates_witness :
    (hybrid_retrieval pySetFirst [1, 2] [2, 3]).Nodup ∧
    (∀ d, d ∈ hybrid_retrieval pySetFirst [1, 2] [2, 3] ↔
      d ∈ ([1, 2] : List Nat) ∨ d ∈ ([2, 3] : List Nat)) ∧
    (∀ d, d ∈ ([1, 2] : List Nat) → d ∈ ([2, 3] : List Nat) →
      List.count d (hybrid_retrieval pySetFirst [1, 2] [2, 3]) = 1) :=
  hybrid_retrieval_no_duplicates pySetFirst [1, 2] [2, 3] (by decide)

/-- **C6, counterexample.** The claim says two runs over the same index
snapshot and query return the identical order, ties broken by chunk identity.
At the concrete snapshot where FAISS returns chunk `0` and BM25 returns chunk
`1`, two admissible set-enumeration orders (CPython's set iteration order is
not fixed across runs) both yield valid duplicate-free merges of the same
candidates, yet in different orders — and the code contains no tie-breaking
step at all. -/
theorem hybrid_retrieval_run_order_differs :
    isSetListOf (hybrid_retrieval pySetFirst [0] [1]) (([0] : List Nat) ++ [1]) ∧
    isSetListOf (hybrid_retrieval pySetRev [0] [1]) (([0] : List Nat) ++ [1]) ∧
    hybrid_retrieval pySetFirst [0] [1] ≠ hybrid_retrieval pySetRev ([0] : List Nat) [1] := by
  decide

/-- **C6, amended.** For a fixed index snapshot and a fixed query, any two
runs of the hybrid merge return the same *set* of chunks — the outputs are
duplicate-free permutations of each other — but the order within the output
is the unspecified Python set-iteration order, with no tie-breaking by chunk
identity. -/
theorem hybrid_retrieval_deterministic_as_set {Doc : Type} [DecidableEq Doc]
    (s1 s2 : List Doc → List Doc) (faiss_docs bm25_docs : List Doc)
    (h1 : isSetListOf (s1 (faiss_docs ++ bm25_docs)) (faiss_docs ++ bm25_docs))
    (h2 : isSetListOf (s2 (faiss_docs ++ bm25_docs)) (faiss_docs ++ bm25_docs)) :
    List.Perm (hybrid_retrieval s1 faiss_docs bm25_docs)
      (hybrid_retrieval s2 faiss_docs bm25_docs) := by
  obtain ⟨hnd1, hin1, hout1⟩ := h1
  obtain ⟨hnd2, hin2, hout2⟩ := h2
  show List.Perm (s1 (faiss_docs ++ bm25_docs)) (s2 (faiss_docs ++ bm25_docs))
  rw [List.perm_ext_iff_of_nodup hnd1 hnd2]
  intro a
  exact ⟨fun ha => hin2 a (hout1 a ha), fun ha => hin1 a (hout2 a ha)⟩

/-- Witness for **C6 (amended)**: the two differently-ordered runs of the
counterexample are permutations of each other. -/
theorem hybrid_retrieval_deterministic_as_set_witness :
    List.Perm (hybrid_retrieval pySetFirst [0] [1])
      (hybrid_retrieval pySetRev ([0] : List Nat) [1]) :=
  hybrid_retrieval_deterministic_as_set pySetFirst pySetRev [0] [1]
    (by decide) (by decide)

/-- **C8.** The stage application in `process_query` equals the left fold of
the draft through the fixed ordered stage list ChainOfThought, TreeOfThought,
ConsistencyValidation under the enable mask — each enabled stage consumes the
previous stage's output plus the retrieved context, each disabled stage is a
no-op passthrough — and with every stage disabled the terminal answer is the
initial draft unchanged. -/
theorem process_query_stage_order (cot tot validation : String → String → String)
    (active : ActiveModules) (draft context : String) :
    process_query cot tot validation active draft context =
      applyStages
        [(active.cot, cot), (active.tot, tot), (active.validation, validation)]
        context draft ∧
    process_query cot tot validation ⟨false, false, false⟩ draft context = draft := by
  constructor <;> simp [process_query, applyStages]

/- ### Helper lemmas for `updateInstructions` -/

theorem foldl_append_eq (lines : List (List Char)) (acc : List Char) :
    List.foldl (fun acc l => acc ++ l ++ ['\n']) acc lines =
      acc ++ accumulateLines lines := by
  induction lines generalizing acc with
  | nil => simp [accumulateLines]
  | cons x ls ih =>
    show List.foldl _ (acc ++ x ++ ['\n']) ls = acc ++ accumulateLines (x :: ls)
    rw [ih]
    have hx : accumulateLines (x :: ls) = (x ++ ['\n']) ++ accumulateLines ls := by
      show List.foldl _ (([] : List Char) ++ x ++ ['\n']) ls = _
      rw [ih]
      simp
    rw [hx]
    simp [List.append_assoc]

theorem accumulateLines_join (lines : List (List Char)) (h : lines ≠ []) :
    accumulateLines lines = joinSep ['\n'] lines ++ ['\n'] := by
  induction lines with
  | nil => exact absurd rfl h
  | cons x ls ih =>
    cases ls with
    | nil => simp [accumulateLines, joinSep]
    | cons y zs =>
      have hstep : accumulateLines (x :: y :: zs) =
          (x ++ ['\n']) ++ accumulateLines (y :: zs) := by
        show List.foldl _ (([] : List Char) ++ x ++ ['\n']) (y :: zs) = _
        rw [foldl_append_eq]
        simp
      rw [hstep, ih (by simp)]
      simp [joinSep, List.append_assoc]

theorem jsTrim_append_newline (s : List Char) : jsTrim (s ++ ['\n']) = jsTrim s := by
  have h : wsChar '\n' = true := by decide
  simp [jsTrim, List.reverse_append, List.dropWhile_cons, h]

/-- **C10.** `updateInstructions` always resolves and never rejects: for every
sequence of received lines and both ways the input can end — end-of-input or
SIGINT (whose handler merely closes the readline interface, firing the same
`close` handler) — the promise resolves with the lines joined by newlines and
trimmed of leading and trailing whitespace; on SIGINT this is the partial
input accumulated so far, not a failure. -/
theorem updateInstructions_always_resolves (lines : List (List Char))
    (t : Terminator) :
    updateInstructions lines t = some (jsTrim (joinSep ['\n'] lines)) := by
  have key : jsTrim (accumulateLines lines) = jsTrim (joinSep ['\n'] lines) := by
    cases lines with
    | nil => rfl
    | cons x ls => rw [accumulateLines_join (x :: ls) (by simp), jsTrim_append_newline]
  cases t <;> simp [updateInstructions, key]

end Weavr
